import Mathlib

/-!
# Verification of the sliding-puzzle core (`sliding_puzzle_python.py`)

A shallow embedding of the core game logic of `SlidingPuzzleGame`:
the board is a row-major `List (List Nat)` (value `0` is the blank),
coordinates given to the public move operations are `Int` (Python ints),
and the ambient randomness of the shuffle is modelled by an explicit
parameter `randPerms : Nat → List (Int × Int)` giving, for each of the
`size*size*10` shuffle iterations, the order in which the four cardinal
directions are attempted (theorems quantify over all such parameters,
a superset of the outcomes of `random.shuffle`).
-/

namespace SlidingPuzzle

/-- Read `grid[r][c]`, with an out-of-range default of `0`.  The Python code
only ever indexes inside the `size × size` bounds, so the default is never
exercised on the states the theorems quantify over. -/
def cell (g : List (List Nat)) (r c : Nat) : Nat :=
  (g.getD r []).getD c 0

/-- Write `grid[r][c] = v` (a no-op when out of range, which the Python code
never does). -/
def setCell (g : List (List Nat)) (r c : Nat) (v : Nat) : List (List Nat) :=
  g.set r ((g.getD r []).set c v)

/-- The grid is a `size × size` matrix: `size` rows, each of length `size`. -/
def Shape (size : Nat) (g : List (List Nat)) : Prop :=
  g.length = size ∧ ∀ i, i < size → (g.getD i []).length = size

/-- All `(row, col)` pairs with `row, col < size`, in row-major order; the
iteration space of the Python `for row in range(size): for col in range(size)`
loops. -/
def allPositions (size : Nat) : List (Nat × Nat) :=
  (List.range size).flatMap fun r => (List.range size).map fun c => (r, c)

/-- The `Difficulty` enum: `EASY = 3`, `MEDIUM = 4`, `HARD = 5`, `EXPERT = 6`. -/
inductive Difficulty
  | easy
  | medium
  | hard
  | expert
deriving DecidableEq

/-- The numeric value of a `Difficulty`, i.e. the board size `N`. -/
def Difficulty.value : Difficulty → Nat
  | .easy => 3
  | .medium => 4
  | .hard => 5
  | .expert => 6

/-- The mutable state of `SlidingPuzzleGame` that the core algorithms touch:
`size`, `grid`, `blank_pos`, and the move counter of `stats`.  (The wall-clock
fields of `GameStats` are out of scope of the embedded core.) -/
structure GameState where
  size : Nat
  grid : List (List Nat)
  blank_pos : Nat × Nat
  moves : Nat
deriving DecidableEq

/-- The grid built by the comprehension in `generate_solvable_puzzle`:
`grid[row][col] = row * size + col + 1`. -/
def baseGrid (size : Nat) : List (List Nat) :=
  (List.range size).map fun row => (List.range size).map fun col => row * size + col + 1

/-- The solved starting board: the base grid with `grid[size-1][size-1] = 0`. -/
def solvedGrid (size : Nat) : List (List Nat) :=
  setCell (baseGrid size) (size - 1) (size - 1) 0

/-- `_find_blank_position`: row-major scan for the first cell equal to `0`,
with the Python fallback `(0, 0)` when no blank exists. -/
def find_blank_position (size : Nat) (g : List (List Nat)) : Nat × Nat :=
  ((allPositions size).find? fun p => cell g p.1 p.2 == 0).getD (0, 0)

/-- The inversion count of `_check_solvability`: for each element, the number
of later (hence lower-index) elements that are smaller, summed — exactly the
nested `for i / for j in range(i+1, …)` loops of the source. -/
def inversions : List Nat → Nat
  | [] => 0
  | x :: xs => xs.countP (fun y => y < x) + inversions xs

/-- `_check_solvability`: flatten row-major excluding the blank, count
inversions; odd `size` is solvable iff the count is even, even `size` iff
`inversions + (size - blank_row)` is odd. -/
def check_solvability (size : Nat) (g : List (List Nat)) : Bool :=
  let flat_puzzle := g.flatten.filter fun num => num ≠ 0
  let invs := inversions flat_puzzle
  if size % 2 = 1 then
    invs % 2 = 0
  else
    let blank_row := (find_blank_position size g).1
    let blank_from_bottom := size - blank_row
    (invs + blank_from_bottom) % 2 = 1

/-- The list `non_blank_tiles` of `_make_solvable`: all positions holding a
nonzero value, in row-major order. -/
def nonBlankPositions (size : Nat) (g : List (List Nat)) : List (Nat × Nat) :=
  (allPositions size).filter fun p => cell g p.1 p.2 != 0

/-- `_make_solvable`: swap the values of the first two non-blank tiles in
row-major order (no-op when fewer than two exist). -/
def make_solvable (size : Nat) (g : List (List Nat)) : List (List Nat) :=
  match nonBlankPositions size g with
  | p1 :: p2 :: _ =>
    setCell (setCell g p1.1 p1.2 (cell g p2.1 p2.2)) p2.1 p2.2 (cell g p1.1 p1.2)
  | _ => g

/-- One iteration of the shuffle loop in `_shuffle_puzzle`: try the given
directions in order; at the first one whose target is in bounds, swap the
blank with that cell and stop. -/
def tryDirs (size : Nat) :
    List (List Nat) × Nat × Nat → List (Int × Int) → List (List Nat) × Nat × Nat
  | st, [] => st
  | (g, br, bc), (dr, dc) :: rest =>
    let nr : Int := (br : Int) + dr
    let nc : Int := (bc : Int) + dc
    if 0 ≤ nr ∧ nr < (size : Int) ∧ 0 ≤ nc ∧ nc < (size : Int) then
      let g1 := setCell g br bc (cell g nr.toNat nc.toNat)
      let g2 := setCell g1 nr.toNat nc.toNat 0
      (g2, nr.toNat, nc.toNat)
    else
      tryDirs size (g, br, bc) rest

/-- `_shuffle_puzzle`: `size*size*10` iterations, the `i`-th using the
direction order `randPerms i` (the outcome of `random.shuffle`). -/
def shuffle_puzzle (size : Nat) (randPerms : Nat → List (Int × Int))
    (g : List (List Nat)) (br bc : Nat) : List (List Nat) × Nat × Nat :=
  (List.range (size * size * 10)).foldl (fun st i => tryDirs size st (randPerms i)) (g, br, bc)

/-- `generate_solvable_puzzle`: build the solved board, shuffle it, recompute
the blank, and if the solvability check fails repair with `_make_solvable`
and recompute the blank again; the move counter is reset to `0`. -/
def generate_solvable_puzzle (size : Nat) (randPerms : Nat → List (Int × Int)) : GameState :=
  let g0 := solvedGrid size
  let g1 := (shuffle_puzzle size randPerms g0 (size - 1) (size - 1)).1
  if check_solvability size g1 then
    { size := size, grid := g1, blank_pos := find_blank_position size g1, moves := 0 }
  else
    let g2 := make_solvable size g1
    { size := size, grid := g2, blank_pos := find_blank_position size g2, moves := 0 }

/-- `can_move_tile`: in bounds, not the blank cell, and at absolute row/col
distance `(1,0)` or `(0,1)` from the blank. -/
def can_move_tile (s : GameState) (row col : Int) : Bool :=
  if ¬ (0 ≤ row ∧ row < (s.size : Int) ∧ 0 ≤ col ∧ col < (s.size : Int)) then
    false
  else if cell s.grid row.toNat col.toNat = 0 then
    false
  else
    let row_diff := (row - (s.blank_pos.1 : Int)).natAbs
    let col_diff := (col - (s.blank_pos.2 : Int)).natAbs
    (row_diff = 1 ∧ col_diff = 0) ∨ (row_diff = 0 ∧ col_diff = 1)

/-- `move_tile`: if the tile can move, slide it into the blank, record the
new blank position and bump the move counter; otherwise return `false`
untouched.  The returned pair is (return value, state after the call). -/
def move_tile (s : GameState) (row col : Int) : Bool × GameState :=
  if can_move_tile s row col then
    let g1 := setCell s.grid s.blank_pos.1 s.blank_pos.2 (cell s.grid row.toNat col.toNat)
    let g2 := setCell g1 row.toNat col.toNat 0
    (true, { s with grid := g2, blank_pos := (row.toNat, col.toNat), moves := s.moves + 1 })
  else
    (false, s)

/-- The inner `for col` loop of `is_solved` on the remaining column indices:
`some b` is an early `return b` out of the whole function, `none` means the
row was consumed; the second component is the updated `expected` counter. -/
def rowScan (size : Nat) (g : List (List Nat)) (row : Nat) :
    Nat → List Nat → Option Bool × Nat
  | expected, [] => (none, expected)
  | expected, col :: cols =>
    if row = size - 1 ∧ col = size - 1 then
      (some (cell g row col == 0), expected)
    else if cell g row col ≠ expected then
      (some false, expected)
    else
      rowScan size g row (expected + 1) cols

/-- The outer `for row` loop of `is_solved`, threading `expected` through the
rows and propagating an early return. -/
def gridScan (size : Nat) (g : List (List Nat)) : Nat → List Nat → Bool
  | _, [] => true
  | expected, row :: rows =>
    match rowScan size g row expected (List.range size) with
    | (some b, _) => b
    | (none, e) => gridScan size g e rows

/-- `is_solved`: row-major scan comparing each cell to the running `expected`
counter starting at `1`, with the bottom-right cell required to be `0`. -/
def is_solved (s : GameState) : Bool :=
  gridScan s.size s.grid 1 (List.range s.size)

/-- States reachable through the public lifecycle: a fresh
`generate_solvable_puzzle` at any difficulty (under any randomness), followed
by any sequence of `move_tile` calls with arbitrary integer arguments. -/
inductive Reachable : GameState → Prop
  | generate (d : Difficulty) (randPerms : Nat → List (Int × Int)) :
      Reachable (generate_solvable_puzzle d.value randPerms)
  | move (s : GameState) (row col : Int) :
      Reachable s → Reachable (move_tile s row col).2

/-! ## Basic lemmas about `cell`, `setCell` and `Shape` -/

theorem getD_set_ne {α : Type} (l : List α) {i j : Nat} (d a : α) (h : i ≠ j) :
    (l.set i a).getD j d = l.getD j d := by
  rw [List.getD_eq_getElem?_getD, List.getElem?_set_ne h, ← List.getD_eq_getElem?_getD]

theorem getD_set_self {α : Type} (l : List α) {i : Nat} (d a : α) (h : i < l.length) :
    (l.set i a).getD i d = a := by
  rw [List.getD_eq_getElem?_getD, List.getElem?_set_self h]
  rfl

theorem length_setCell (g : List (List Nat)) (r c v : Nat) :
    (setCell g r c v).length = g.length := by
  simp [setCell]

theorem shape_setCell {n : Nat} {g : List (List Nat)} (h : Shape n g) (r c v : Nat) :
    Shape n (setCell g r c v) := by
  obtain ⟨hlen, hrow⟩ := h
  refine ⟨by simp [setCell, hlen], fun i hi => ?_⟩
  by_cases hir : i = r
  · subst hir
    rcases Nat.lt_or_ge i g.length with hlt | hge
    · rw [setCell, getD_set_self g [] _ hlt, List.length_set]
      exact hrow i hi
    · rw [setCell, List.set_eq_of_length_le (by simpa using hge)]
      exact hrow i hi
  · rw [setCell, getD_set_ne g [] _ (fun hh => hir hh.symm)]
    exact hrow i hi

theorem cell_setCell_ne {r c r' c' : Nat} (g : List (List Nat)) (v : Nat)
    (h : (r', c') ≠ (r, c)) :
    cell (setCell g r c v) r' c' = cell g r' c' := by
  by_cases hr : r' = r
  · subst hr
    have hc : c ≠ c' := fun hc => h (by simp [hc])
    rcases Nat.lt_or_ge r' g.length with hlt | hge
    · rw [cell, setCell, getD_set_self g [] _ hlt, getD_set_ne _ 0 _ hc]
      rfl
    · rw [cell, setCell, List.set_eq_of_length_le (by simpa using hge)]
      rfl
  · rw [cell, setCell, getD_set_ne g [] _ (fun hh => hr hh.symm)]
    rfl

theorem cell_setCell_self {n : Nat} {g : List (List Nat)} (h : Shape n g)
    {r c : Nat} (hr : r < n) (hc : c < n) (v : Nat) :
    cell (setCell g r c v) r c = v := by
  obtain ⟨hlen, hrow⟩ := h
  have hrg : r < g.length := hlen ▸ hr
  have hcg : c < (g.getD r []).length := by rw [hrow r hr]; exact hc
  rw [cell, setCell, getD_set_self g [] _ hrg, getD_set_self _ 0 _ hcg]

theorem grid_ext {n : Nat} {g g' : List (List Nat)} (hg : Shape n g) (hg' : Shape n g')
    (h : ∀ r c, r < n → c < n → cell g r c = cell g' r c) : g = g' := by
  obtain ⟨hlen, hrow⟩ := hg
  obtain ⟨hlen', hrow'⟩ := hg'
  apply List.ext_getElem (by rw [hlen, hlen'])
  intro r hr1 hr2
  have hrn : r < n := hlen ▸ hr1
  apply List.ext_getElem (by rw [← List.getD_eq_getElem g [], ← List.getD_eq_getElem g' [],
    hrow r hrn, hrow' r hrn])
  intro c hc1 hc2
  have hcn : c < n := by
    have := hrow r hrn
    rw [List.getD_eq_getElem g [] hr1] at this
    omega
  have := h r c hrn hcn
  rw [cell, cell, List.getD_eq_getElem g [] hr1, List.getD_eq_getElem g' [] hr2,
    List.getD_eq_getElem _ 0 hc1, List.getD_eq_getElem _ 0 hc2] at this
  exact this

/-! ## The row-major position list -/

theorem mem_allPositions {n : Nat} {p : Nat × Nat} :
    p ∈ allPositions n ↔ p.1 < n ∧ p.2 < n := by
  obtain ⟨r, c⟩ := p
  simp [allPositions]

theorem nodup_allPositions (n : Nat) : (allPositions n).Nodup := by
  rw [allPositions, List.nodup_flatMap]
  refine ⟨fun r _ => List.Nodup.map (fun a b h => by simpa using h) (List.nodup_range n), ?_⟩
  refine (List.pairwise_lt_range n).imp ?_
  intro a b hab p hp1 hp2
  simp only [Function.onFun, List.mem_map, List.mem_range] at hp1 hp2
  obtain ⟨c1, _, rfl⟩ := hp1
  obtain ⟨c2, _, h2⟩ := hp2
  simp only [Prod.mk.injEq] at h2
  omega

theorem flatten_eq_flatMap_range {α : Type} (g : List (List α)) :
    g.flatten = (List.range g.length).flatMap (fun r => g.getD r []) := by
  induction g with
  | nil => rfl
  | cons x xs ih =>
    rw [List.flatten_cons, List.length_cons, List.range_succ_eq_map, List.flatMap_cons,
      List.flatMap_map]
    simp only [List.getD_cons_zero, List.getD_cons_succ]
    rw [ih]

theorem list_eq_map_getD_range {α : Type} (d : α) (l : List α) :
    l = (List.range l.length).map (fun c => l.getD c d) := by
  induction l with
  | nil => rfl
  | cons x xs ih =>
    rw [List.length_cons, List.range_succ_eq_map, List.map_cons, List.map_map]
    simp only [List.getD_cons_zero, Function.comp, List.getD_cons_succ]
    exact congrArg (x :: ·) ih

/-- Under the shape invariant, the row-major flattening of the grid is the
`cell` function mapped over the row-major position list. -/
theorem flatten_eq_map_allPositions {n : Nat} {g : List (List Nat)} (h : Shape n g) :
    g.flatten = (allPositions n).map (fun p => cell g p.1 p.2) := by
  obtain ⟨hlen, hrow⟩ := h
  rw [flatten_eq_flatMap_range, hlen, allPositions, List.map_flatMap,
    List.flatMap_def, List.flatMap_def]
  apply congrArg List.flatten
  apply List.map_congr_left
  intro r hr
  rw [List.mem_range] at hr
  rw [List.map_map]
  have h1 : g.getD r [] = (List.range n).map (fun c => (g.getD r []).getD c 0) := by
    conv_lhs => rw [list_eq_map_getD_range 0 (g.getD r [])]
    rw [hrow r hr]
  rw [h1]
  rfl

/-! ## Permutation lemmas for swapping two cells -/

theorem swap_head_perm {α : Type} (x y : α) (l1 l2 : List α) :
    (x :: (l1 ++ y :: l2)).Perm (y :: (l1 ++ x :: l2)) := by
  have h1 : (x :: (l1 ++ y :: l2)).Perm (x :: y :: (l1 ++ l2)) :=
    List.Perm.cons x List.perm_middle
  have h2 : (x :: y :: (l1 ++ l2)).Perm (y :: x :: (l1 ++ l2)) :=
    List.Perm.swap y x (l1 ++ l2)
  have h3 : (y :: (l1 ++ x :: l2)).Perm (y :: x :: (l1 ++ l2)) :=
    List.Perm.cons y List.perm_middle
  exact (h1.trans h2).trans h3.symm

theorem map_swap_perm_aux {α : Type} (f fs : α → Nat) (a b : α)
    (hfa : fs a = f b) (hfb : fs b = f a)
    (hother : ∀ q, q ≠ a → q ≠ b → fs q = f q) (t1 t2 : List α)
    (ha : a ∉ t1 ++ b :: t2) (hb1 : b ∉ t1) (hb2 : b ∉ t2) :
    ((a :: (t1 ++ b :: t2)).map fs).Perm ((a :: (t1 ++ b :: t2)).map f) := by
  have ht1 : t1.map fs = t1.map f := by
    apply List.map_congr_left
    intro q hq
    exact hother q (fun h => ha (h ▸ List.mem_append_left _ hq))
      (fun h => hb1 (h ▸ hq))
  have ht2 : t2.map fs = t2.map f := by
    apply List.map_congr_left
    intro q hq
    exact hother q (fun h => ha (h ▸ List.mem_append_right _ (List.mem_cons_of_mem _ hq)))
      (fun h => hb2 (h ▸ hq))
  simp only [List.map_cons, List.map_append]
  rw [ht1, ht2, hfa, hfb]
  exact swap_head_perm (f b) (f a) (t1.map f) (t2.map f)

/-- If `fs` agrees with `f` everywhere except that the values at two distinct
positions `p1, p2` of a duplicate-free list are exchanged, the two images are
permutations of each other. -/
theorem map_swap_perm {α : Type} (f fs : α → Nat) (p1 p2 : α) (h12 : p1 ≠ p2)
    (hf1 : fs p1 = f p2) (hf2 : fs p2 = f p1)
    (hother : ∀ q, q ≠ p1 → q ≠ p2 → fs q = f q) :
    ∀ A : List α, A.Nodup → p1 ∈ A → p2 ∈ A → (A.map fs).Perm (A.map f) := by
  intro A
  induction A with
  | nil => intro _ h1; exact absurd h1 (List.not_mem_nil p1)
  | cons a t ih =>
    intro hnd h1 h2
    have hndt := (List.nodup_cons.mp hnd).2
    have hat := (List.nodup_cons.mp hnd).1
    rcases List.mem_cons.mp h1 with h1a | h1t
    · subst h1a
      have h2t : p2 ∈ t := by
        rcases List.mem_cons.mp h2 with h2a | h2t
        · exact absurd h2a.symm h12
        · exact h2t
      obtain ⟨t1, t2, rfl⟩ := List.append_of_mem h2t
      have hb1 : p2 ∉ t1 := by
        intro hmem
        rcases List.nodup_append.mp hndt with ⟨_, _, hdisj⟩
        exact hdisj hmem (List.mem_cons_self p2 t2)
      have hb2 : p2 ∉ t2 := by
        rcases List.nodup_append.mp hndt with ⟨_, hnd2, _⟩
        exact (List.nodup_cons.mp hnd2).1
      exact map_swap_perm_aux f fs p1 p2 hf1 hf2 hother t1 t2 hat hb1 hb2
    · rcases List.mem_cons.mp h2 with h2a | h2t
      · subst h2a
        obtain ⟨t1, t2, rfl⟩ := List.append_of_mem h1t
        have hb1 : p1 ∉ t1 := by
          intro hmem
          rcases List.nodup_append.mp hndt with ⟨_, _, hdisj⟩
          exact hdisj hmem (List.mem_cons_self p1 t2)
        have hb2 : p1 ∉ t2 := by
          rcases List.nodup_append.mp hndt with ⟨_, hnd2, _⟩
          exact (List.nodup_cons.mp hnd2).1
        exact map_swap_perm_aux f fs p2 p1 hf2 hf1
          (fun q hq2 hq1 => hother q hq1 hq2) t1 t2 hat hb1 hb2
      · have hne1 : a ≠ p1 := fun h => hat (h ▸ h1t)
        have hne2 : a ≠ p2 := fun h => hat (h ▸ h2t)
        simp only [List.map_cons]
        rw [hother a hne1 hne2]
        exact List.Perm.cons (f a) (ih hndt h1t h2t)

/-! ## The solved starting board -/

theorem shape_baseGrid (n : Nat) : Shape n (baseGrid n) := by
  refine ⟨by simp [baseGrid], fun i hi => ?_⟩
  rw [baseGrid, List.getD_eq_getElem _ [] (by simpa using hi)]
  simp

theorem cell_baseGrid {n r c : Nat} (hr : r < n) (hc : c < n) :
    cell (baseGrid n) r c = r * n + c + 1 := by
  rw [cell, baseGrid, List.getD_eq_getElem _ [] (by simpa using hr)]
  simp only [List.getElem_map, List.getElem_range]
  rw [List.getD_eq_getElem _ 0 (by simpa using hc)]
  simp

theorem shape_solvedGrid (n : Nat) : Shape n (solvedGrid n) :=
  shape_setCell (shape_baseGrid n) _ _ _

theorem flatMap_baseRows (n : Nat) :
    ∀ a, ((List.range a).flatMap fun r => (List.range n).map fun c => r * n + c + 1) =
      (List.range (a * n)).map Nat.succ := by
  intro a
  induction a with
  | zero => simp
  | succ k ih =>
    rw [List.range_succ, List.flatMap_append, ih]
    simp only [List.flatMap_cons, List.flatMap_nil, List.append_nil]
    rw [Nat.succ_mul, List.range_add, List.map_append, List.map_map]
    congr 1

theorem flatten_baseGrid (n : Nat) :
    (baseGrid n).flatten = (List.range (n * n)).map Nat.succ := by
  rw [baseGrid, ← List.flatMap_def]
  exact flatMap_baseRows n n

theorem exists_allPositions_concat {n : Nat} (h : 1 ≤ n) :
    ∃ P, allPositions n = P ++ [(n - 1, n - 1)] := by
  obtain ⟨m, rfl⟩ : ∃ m, n = m + 1 := ⟨n - 1, by omega⟩
  refine ⟨((List.range m).flatMap fun r => (List.range (m + 1)).map fun c => (r, c)) ++
    ((List.range m).map fun c => (m, c)), ?_⟩
  simp only [allPositions, Nat.add_sub_cancel]
  rw [List.range_succ]
  simp [List.flatMap_append, List.map_append, List.append_assoc]

theorem flatten_solvedGrid {n : Nat} (h : 1 ≤ n) :
    (solvedGrid n).flatten = ((List.range (n * n - 1)).map Nat.succ) ++ [0] := by
  obtain ⟨P, hP⟩ := exists_allPositions_concat h
  have hsb : Shape n (baseGrid n) := shape_baseGrid n
  have hss : Shape n (solvedGrid n) := shape_solvedGrid n
  have hlast : ((n : Nat) - 1, (n : Nat) - 1) ∉ P := by
    have hnd := nodup_allPositions n
    rw [hP, List.nodup_append] at hnd
    exact fun hmem => hnd.2.2 hmem (List.mem_cons_self _ _)
  have hPmap : (P.map fun p => cell (solvedGrid n) p.1 p.2) =
      (P.map fun p => cell (baseGrid n) p.1 p.2) := by
    apply List.map_congr_left
    intro p hp
    exact cell_setCell_ne (baseGrid n) 0 (fun he => hlast (he ▸ hp))
  have hbase_last : cell (baseGrid n) (n - 1) (n - 1) = n * n := by
    rw [cell_baseGrid (by omega) (by omega)]
    obtain ⟨m, rfl⟩ : ∃ m, n = m + 1 := ⟨n - 1, by omega⟩
    simp only [Nat.add_sub_cancel]
    ring
  have hmb := flatten_eq_map_allPositions hsb
  rw [hP, List.map_append, List.map_cons, List.map_nil, hbase_last,
    flatten_baseGrid] at hmb
  have hsq : 1 ≤ n * n := Nat.one_le_iff_ne_zero.mpr (by positivity)
  have hrange : (List.range (n * n)).map Nat.succ =
      ((List.range (n * n - 1)).map Nat.succ) ++ [n * n] := by
    conv_lhs => rw [show n * n = (n * n - 1) + 1 by omega, List.range_succ]
    rw [List.map_append]
    simp only [List.map_cons, List.map_nil]
    congr 2
    omega
  rw [hrange] at hmb
  have hPbase : (P.map fun p => cell (baseGrid n) p.1 p.2) =
      (List.range (n * n - 1)).map Nat.succ := by
    have := congrArg List.dropLast hmb
    rw [List.dropLast_concat, List.dropLast_concat] at this
    exact this.symm
  have hms := flatten_eq_map_allPositions hss
  rw [hP, List.map_append, List.map_cons, List.map_nil] at hms
  rw [hms, hPmap, hPbase]
  congr 2
  exact cell_setCell_self hsb (by omega) (by omega) 0

/-- The grid invariant of §3: a `size × size` matrix whose row-major
flattening is a permutation of `{0, …, size²−1}`. -/
def GoodGrid (n : Nat) (g : List (List Nat)) : Prop :=
  Shape n g ∧ g.flatten.Perm (List.range (n * n))

theorem goodGrid_solvedGrid {n : Nat} (h : 1 ≤ n) : GoodGrid n (solvedGrid n) := by
  refine ⟨shape_solvedGrid n, ?_⟩
  rw [flatten_solvedGrid h]
  have h1 : (((List.range (n * n - 1)).map Nat.succ) ++ 0 :: []).Perm
      (0 :: (((List.range (n * n - 1)).map Nat.succ) ++ [])) := List.perm_middle
  rw [List.append_nil] at h1
  have h2 : (0 :: (List.range (n * n - 1)).map Nat.succ) = List.range (n * n) := by
    rw [← List.range_succ_eq_map]
    congr 1
    have hsq : 1 ≤ n * n := Nat.one_le_iff_ne_zero.mpr (by positivity)
    omega
  exact h2 ▸ h1

/-! ## The shuffle preserves the grid invariant -/

/-- Swapping the (tracked) blank cell with any other in-bounds cell keeps the
flattened grid a permutation of what it was. -/
theorem flatten_swap_perm {n : Nat} {g : List (List Nat)} (hs : Shape n g)
    {br bc nr nc : Nat} (hbr : br < n) (hbc : bc < n) (hnr : nr < n) (hnc : nc < n)
    (hblank : cell g br bc = 0) :
    (setCell (setCell g br bc (cell g nr nc)) nr nc 0).flatten.Perm g.flatten := by
  set g1 := setCell g br bc (cell g nr nc) with hg1
  set g2 := setCell g1 nr nc 0 with hg2
  have hs1 : Shape n g1 := shape_setCell hs _ _ _
  have hs2 : Shape n g2 := shape_setCell hs1 _ _ _
  rw [flatten_eq_map_allPositions hs2, flatten_eq_map_allPositions hs]
  by_cases heq : (br, bc) = (nr, nc)
  · have hbrn : br = nr := congrArg Prod.fst heq
    have hbcn : bc = nc := congrArg Prod.snd heq
    subst hbrn
    subst hbcn
    apply List.Perm.of_eq
    apply List.map_congr_left
    intro p _
    by_cases hp : p = (br, bc)
    · subst hp
      rw [hg2, cell_setCell_self hs1 hbr hbc, hblank]
    · rw [hg2, hg1, cell_setCell_ne _ _ hp, cell_setCell_ne _ _ hp]
  · apply map_swap_perm (fun p => cell g p.1 p.2) (fun p => cell g2 p.1 p.2)
      (br, bc) (nr, nc) heq ?_ ?_ ?_ _ (nodup_allPositions n) ?_ ?_
    · dsimp only
      rw [hg2, cell_setCell_ne _ _ heq, hg1, cell_setCell_self hs hbr hbc]
    · dsimp only
      rw [hg2, cell_setCell_self hs1 hnr hnc, hblank]
    · rintro ⟨qa, qb⟩ hq1 hq2
      dsimp only
      rw [hg2, cell_setCell_ne _ _ hq2, hg1, cell_setCell_ne _ _ hq1]
    · exact mem_allPositions.mpr ⟨hbr, hbc⟩
    · exact mem_allPositions.mpr ⟨hnr, hnc⟩

/-- The invariant carried through the shuffle loop: a well-formed grid
together with in-bounds tracked blank coordinates that do hold the blank. -/
def ShufInv (n : Nat) (st : List (List Nat) × Nat × Nat) : Prop :=
  GoodGrid n st.1 ∧ st.2.1 < n ∧ st.2.2 < n ∧ cell st.1 st.2.1 st.2.2 = 0

theorem shufInv_tryDirs {n : Nat} :
    ∀ (dirs : List (Int × Int)) (st : List (List Nat) × Nat × Nat),
      ShufInv n st → ShufInv n (tryDirs n st dirs) := by
  intro dirs
  induction dirs with
  | nil => exact fun st h => h
  | cons d rest ih =>
    rintro ⟨g, br, bc⟩ h
    obtain ⟨⟨hshape, hperm⟩, hbr, hbc, hblank⟩ := h
    obtain ⟨dr, dc⟩ := d
    rw [tryDirs]
    by_cases hcond : 0 ≤ (br : Int) + dr ∧ (br : Int) + dr < (n : Int) ∧
        0 ≤ (bc : Int) + dc ∧ (bc : Int) + dc < (n : Int)
    · rw [if_pos hcond]
      have hnr : ((br : Int) + dr).toNat < n := by omega
      have hnc : ((bc : Int) + dc).toNat < n := by omega
      have hs1 : Shape n (setCell g br bc (cell g ((br : Int) + dr).toNat ((bc : Int) + dc).toNat)) :=
        shape_setCell hshape _ _ _
      refine ⟨⟨shape_setCell hs1 _ _ _, ?_⟩, hnr, hnc, ?_⟩
      · exact (flatten_swap_perm hshape hbr hbc hnr hnc hblank).trans hperm
      · exact cell_setCell_self hs1 hnr hnc 0
    · rw [if_neg hcond]
      exact ih (g, br, bc) ⟨⟨hshape, hperm⟩, hbr, hbc, hblank⟩

theorem shufInv_foldl {n : Nat} (randPerms : Nat → List (Int × Int)) :
    ∀ (l : List Nat) (st : List (List Nat) × Nat × Nat), ShufInv n st →
      ShufInv n (l.foldl (fun s i => tryDirs n s (randPerms i)) st) := by
  intro l
  induction l with
  | nil => exact fun st h => h
  | cons x xs ih =>
    intro st h
    rw [List.foldl_cons]
    exact ih _ (shufInv_tryDirs (randPerms x) st h)

theorem shufInv_shuffle {n : Nat} (randPerms : Nat → List (Int × Int))
    {g : List (List Nat)} {br bc : Nat} (h : ShufInv n (g, br, bc)) :
    ShufInv n (shuffle_puzzle n randPerms g br bc) :=
  shufInv_foldl randPerms _ _ h

/-! ## Locating the blank -/

theorem find_blank_spec {n : Nat} {g : List (List Nat)}
    (h : ∃ p ∈ allPositions n, cell g p.1 p.2 = 0) :
    (find_blank_position n g).1 < n ∧ (find_blank_position n g).2 < n ∧
      cell g (find_blank_position n g).1 (find_blank_position n g).2 = 0 := by
  obtain ⟨p, hp, hp0⟩ := h
  rw [find_blank_position]
  cases hfind : (allPositions n).find? (fun q => cell g q.1 q.2 == 0) with
  | none =>
    exfalso
    have := List.find?_eq_none.mp hfind p hp
    simp [hp0] at this
  | some q =>
    have hq0 : cell g q.1 q.2 = 0 := by
      have := List.find?_some hfind
      simpa using this
    have hqmem : q ∈ allPositions n := List.mem_of_find?_eq_some hfind
    obtain ⟨h1, h2⟩ := mem_allPositions.mp hqmem
    exact ⟨h1, h2, hq0⟩

theorem goodGrid_exists_blank {n : Nat} {g : List (List Nat)} (hg : GoodGrid n g)
    (hn : 1 ≤ n) : ∃ p ∈ allPositions n, cell g p.1 p.2 = 0 := by
  have h0 : (0 : Nat) ∈ g.flatten := by
    rw [hg.2.mem_iff, List.mem_range]
    positivity
  rw [flatten_eq_map_allPositions hg.1, List.mem_map] at h0
  obtain ⟨p, hp, hp0⟩ := h0
  exact ⟨p, hp, hp0⟩

/-! ## The repair step `_make_solvable` -/

theorem find?_congr_local {α : Type} (p q : α → Bool) :
    ∀ l : List α, (∀ a ∈ l, p a = q a) → l.find? p = l.find? q := by
  intro l
  induction l with
  | nil => intro _; rfl
  | cons a t ih =>
    intro h
    have ha := h a (List.mem_cons_self a t)
    cases hq : q a with
    | true => simp [List.find?_cons, ha, hq]
    | false =>
      simp only [List.find?_cons, ha, hq]
      exact ih fun x hx => h x (List.mem_cons_of_mem a hx)

theorem decide_ne_zero_eq_bne (x : Nat) : (decide (x ≠ 0)) = (x != 0) := by
  cases x <;> rfl

theorem range_filter_ne_zero {k : Nat} (h : 1 ≤ k) :
    (List.range k).filter (fun v => decide (v ≠ 0)) = (List.range (k - 1)).map Nat.succ := by
  conv_lhs => rw [show k = (k - 1) + 1 by omega, List.range_succ_eq_map, List.filter_cons]
  simp only [decide_not, decide_eq_true_eq]
  rw [if_neg (by simp)]
  rw [List.filter_eq_self.mpr]
  intro a ha
  rw [List.mem_map] at ha
  obtain ⟨b, _, rfl⟩ := ha
  simp

/-- The full description of one application of `_make_solvable` to a
well-formed board of size at least `2`: the first two non-blank positions
exist, their values are swapped and nothing else changes, every blank cell is
untouched, the blank-scan result is unchanged, the board stays well-formed,
and the blank-free flattening has exactly its first two entries exchanged. -/
theorem make_solvable_spec {n : Nat} {g : List (List Nat)} (hg : GoodGrid n g) (hn : 2 ≤ n) :
    ∃ (q1 q2 : Nat × Nat) (rest : List (Nat × Nat)) (t : List Nat),
      nonBlankPositions n g = q1 :: q2 :: rest ∧
      make_solvable n g =
        setCell (setCell g q1.1 q1.2 (cell g q2.1 q2.2)) q2.1 q2.2 (cell g q1.1 q1.2) ∧
      q1 ≠ q2 ∧
      cell g q1.1 q1.2 ≠ 0 ∧ cell g q2.1 q2.2 ≠ 0 ∧
      cell g q1.1 q1.2 ≠ cell g q2.1 q2.2 ∧
      g.flatten.filter (fun v => decide (v ≠ 0)) =
        cell g q1.1 q1.2 :: cell g q2.1 q2.2 :: t ∧
      (make_solvable n g).flatten.filter (fun v => decide (v ≠ 0)) =
        cell g q2.1 q2.2 :: cell g q1.1 q1.2 :: t ∧
      find_blank_position n (make_solvable n g) = find_blank_position n g ∧
      GoodGrid n (make_solvable n g) ∧
      (∀ r c, cell g r c = 0 → cell (make_solvable n g) r c = cell g r c) ∧
      cell (make_solvable n g) q1.1 q1.2 = cell g q2.1 q2.2 ∧
      cell (make_solvable n g) q2.1 q2.2 = cell g q1.1 q1.2 ∧
      (∀ p : Nat × Nat, p ≠ q1 → p ≠ q2 →
        cell (make_solvable n g) p.1 p.2 = cell g p.1 p.2) := by
  obtain ⟨hshape, hperm⟩ := hg
  have hflat : g.flatten = (allPositions n).map (fun p => cell g p.1 p.2) :=
    flatten_eq_map_allPositions hshape
  have hfilter_eq : g.flatten.filter (fun v => decide (v ≠ 0)) =
      (nonBlankPositions n g).map (fun p => cell g p.1 p.2) := by
    rw [hflat, List.filter_map, nonBlankPositions]
    congr 1
    apply List.filter_congr
    intro p _
    exact decide_ne_zero_eq_bne (cell g p.1 p.2)
  -- the blank-free flattening has n*n - 1 ≥ 2 entries
  have hlen : 2 ≤ (nonBlankPositions n g).length := by
    have hpermf := hperm.filter (fun v => decide (v ≠ 0))
    rw [range_filter_ne_zero (by nlinarith)] at hpermf
    have := hpermf.length_eq
    rw [hfilter_eq] at this
    rw [List.length_map] at this
    rw [List.length_map, List.length_range] at this
    have hnn : 4 ≤ n * n := by nlinarith
    omega
  obtain ⟨q1, q2, rest, hnb⟩ :
      ∃ q1 q2 rest, nonBlankPositions n g = q1 :: q2 :: rest := by
    cases hnb : nonBlankPositions n g with
    | nil => rw [hnb] at hlen; simp at hlen
    | cons x l =>
      cases hl : l with
      | nil => rw [hnb, hl] at hlen; simp at hlen
      | cons y l2 => exact ⟨x, y, l2, rfl⟩
  have hmk : make_solvable n g =
      setCell (setCell g q1.1 q1.2 (cell g q2.1 q2.2)) q2.1 q2.2 (cell g q1.1 q1.2) := by
    rw [make_solvable, hnb]
  -- positions and values of the first two non-blank tiles
  have hq1mem : q1 ∈ allPositions n ∧ (cell g q1.1 q1.2 != 0) = true := by
    have : q1 ∈ nonBlankPositions n g := by rw [hnb]; exact List.mem_cons_self _ _
    exact List.mem_filter.mp this
  have hq2mem : q2 ∈ allPositions n ∧ (cell g q2.1 q2.2 != 0) = true := by
    have : q2 ∈ nonBlankPositions n g := by
      rw [hnb]; exact List.mem_cons_of_mem _ (List.mem_cons_self _ _)
    exact List.mem_filter.mp this
  have hv1 : cell g q1.1 q1.2 ≠ 0 := by simpa using hq1mem.2
  have hv2 : cell g q2.1 q2.2 ≠ 0 := by simpa using hq2mem.2
  have hq1b := mem_allPositions.mp hq1mem.1
  have hq2b := mem_allPositions.mp hq2mem.1
  have hnodupA : (allPositions n).Nodup := nodup_allPositions n
  have hnodupNB : (nonBlankPositions n g).Nodup := hnodupA.filter _
  have hq12 : q1 ≠ q2 := by
    rw [hnb] at hnodupNB
    have := (List.nodup_cons.mp hnodupNB).1
    exact fun h => this (h ▸ List.mem_cons_self _ _)
  have hnodupflat : (g.flatten.filter (fun v => decide (v ≠ 0))).Nodup := by
    have : g.flatten.Nodup := (hperm.symm.nodup (List.nodup_range _))
    exact this.filter _
  have hflatcons : g.flatten.filter (fun v => decide (v ≠ 0)) =
      cell g q1.1 q1.2 :: cell g q2.1 q2.2 :: rest.map (fun p => cell g p.1 p.2) := by
    rw [hfilter_eq, hnb]
    rfl
  have hvne : cell g q1.1 q1.2 ≠ cell g q2.1 q2.2 := by
    rw [hflatcons] at hnodupflat
    have := (List.nodup_cons.mp hnodupflat).1
    exact fun h => this (h ▸ List.mem_cons_self _ _)
  -- the two setCell writes, described pointwise
  set gm := setCell (setCell g q1.1 q1.2 (cell g q2.1 q2.2)) q2.1 q2.2 (cell g q1.1 q1.2)
    with hgm
  have hs1 : Shape n (setCell g q1.1 q1.2 (cell g q2.1 q2.2)) := shape_setCell hshape _ _ _
  have hsm : Shape n gm := shape_setCell hs1 _ _ _
  have hcell1 : cell gm q1.1 q1.2 = cell g q2.1 q2.2 := by
    have hne : (q1.1, q1.2) ≠ (q2.1, q2.2) := by
      intro h
      exact hq12 (Prod.ext (congrArg Prod.fst h) (congrArg Prod.snd h))
    rw [hgm, cell_setCell_ne _ _ hne, cell_setCell_self hshape hq1b.1 hq1b.2]
  have hcell2 : cell gm q2.1 q2.2 = cell g q1.1 q1.2 := by
    rw [hgm, cell_setCell_self hs1 hq2b.1 hq2b.2]
  have hcello : ∀ p : Nat × Nat, p ≠ q1 → p ≠ q2 → cell gm p.1 p.2 = cell g p.1 p.2 := by
    rintro ⟨pa, pb⟩ hp1 hp2
    have hne2 : (pa, pb) ≠ (q2.1, q2.2) := by
      intro h
      exact hp2 (by rw [h])
    have hne1 : (pa, pb) ≠ (q1.1, q1.2) := by
      intro h
      exact hp1 (by rw [h])
    rw [hgm, cell_setCell_ne _ _ hne2, cell_setCell_ne _ _ hne1]
  -- cells holding the blank are untouched
  have hblankkeep : ∀ r c, cell g r c = 0 → cell gm r c = cell g r c := by
    intro r c h0
    have h1 : ((r, c) : Nat × Nat) ≠ q1 := by
      intro h
      apply hv1
      rw [← h]
      exact h0
    have h2 : ((r, c) : Nat × Nat) ≠ q2 := by
      intro h
      apply hv2
      rw [← h]
      exact h0
    exact hcello (r, c) h1 h2
  -- the grid invariant is preserved
  have hpermm : gm.flatten.Perm g.flatten := by
    rw [flatten_eq_map_allPositions hsm, flatten_eq_map_allPositions hshape]
    apply map_swap_perm (fun p => cell g p.1 p.2) (fun p => cell gm p.1 p.2)
      q1 q2 hq12 ?_ ?_ ?_ _ hnodupA hq1mem.1 hq2mem.1
    · exact hcell1
    · exact hcell2
    · exact hcello
  have hgood : GoodGrid n gm := ⟨hsm, hpermm.trans hperm⟩
  -- decompose the position list around the first two non-blank positions
  have hnbfilter : (allPositions n).filter (fun p => cell g p.1 p.2 != 0) =
      q1 :: q2 :: rest := by rw [← nonBlankPositions, hnb]
  obtain ⟨A1, A2', hA, hA1, hpredq1, hfA2'⟩ := List.filter_eq_cons_iff.mp hnbfilter
  obtain ⟨A2, A3, hA2', hA2, hpredq2, hfA3⟩ := List.filter_eq_cons_iff.mp hfA2'
  have hq1notA1 : ∀ p ∈ A1, p ≠ q1 ∧ p ≠ q2 := by
    intro p hp
    constructor
    · intro h
      exact hA1 p hp (h ▸ hpredq1)
    · intro h
      exact hA1 p hp (h ▸ hpredq2)
  have hq1notA2 : ∀ p ∈ A2, p ≠ q1 ∧ p ≠ q2 := by
    intro p hp
    constructor
    · intro h
      exact hA2 p hp (h ▸ hpredq1)
    · intro h
      exact hA2 p hp (h ▸ hpredq2)
  have hq1notA3 : ∀ p ∈ A3, p ≠ q1 ∧ p ≠ q2 := by
    intro p hp
    rw [hnb] at hnodupNB
    constructor
    · intro h
      subst h
      have : p ∈ A3.filter (fun p => cell g p.1 p.2 != 0) :=
        List.mem_filter.mpr ⟨hp, hpredq1⟩
      rw [hfA3] at this
      exact (List.nodup_cons.mp hnodupNB).1 (List.mem_cons_of_mem _ this)
    · intro h
      subst h
      have : p ∈ A3.filter (fun p => cell g p.1 p.2 != 0) :=
        List.mem_filter.mpr ⟨hp, hpredq2⟩
      rw [hfA3] at this
      exact (List.nodup_cons.mp (List.nodup_cons.mp hnodupNB).2).1 this
  have hmapA1 : A1.map (fun p => cell gm p.1 p.2) = A1.map (fun p => cell g p.1 p.2) :=
    List.map_congr_left fun p hp => hcello p (hq1notA1 p hp).1 (hq1notA1 p hp).2
  have hmapA2 : A2.map (fun p => cell gm p.1 p.2) = A2.map (fun p => cell g p.1 p.2) :=
    List.map_congr_left fun p hp => hcello p (hq1notA2 p hp).1 (hq1notA2 p hp).2
  have hmapA3 : A3.map (fun p => cell gm p.1 p.2) = A3.map (fun p => cell g p.1 p.2) :=
    List.map_congr_left fun p hp => hcello p (hq1notA3 p hp).1 (hq1notA3 p hp).2
  have hfiltA1 : ((A1.map fun p => cell g p.1 p.2).filter fun v => decide (v ≠ 0)) = [] := by
    rw [List.filter_eq_nil_iff]
    intro a ha
    rw [List.mem_map] at ha
    obtain ⟨p, hp, rfl⟩ := ha
    have := hA1 p hp
    simp only [bne_iff_ne, ne_eq, Decidable.not_not] at this
    simp [this]
  have hfiltA2 : ((A2.map fun p => cell g p.1 p.2).filter fun v => decide (v ≠ 0)) = [] := by
    rw [List.filter_eq_nil_iff]
    intro a ha
    rw [List.mem_map] at ha
    obtain ⟨p, hp, rfl⟩ := ha
    have := hA2 p hp
    simp only [bne_iff_ne, ne_eq, Decidable.not_not] at this
    simp [this]
  have hvq1 : (decide (cell g q1.1 q1.2 ≠ 0)) = true := by simpa using hv1
  have hvq2 : (decide (cell g q2.1 q2.2 ≠ 0)) = true := by simpa using hv2
  have hflat5 : g.flatten.filter (fun v => decide (v ≠ 0)) =
      cell g q1.1 q1.2 :: cell g q2.1 q2.2 ::
        ((A3.map fun p => cell g p.1 p.2).filter fun v => decide (v ≠ 0)) := by
    rw [hflat, hA, hA2']
    simp only [List.map_append, List.map_cons, List.filter_append, List.filter_cons,
      hfiltA1, hfiltA2, hvq1, hvq2, if_true, List.nil_append, List.append_nil]
  have hflat6 : gm.flatten.filter (fun v => decide (v ≠ 0)) =
      cell g q2.1 q2.2 :: cell g q1.1 q1.2 ::
        ((A3.map fun p => cell g p.1 p.2).filter fun v => decide (v ≠ 0)) := by
    rw [flatten_eq_map_allPositions hsm, hA, hA2']
    simp only [List.map_append, List.map_cons]
    rw [hmapA1, hmapA2, hmapA3, hcell1, hcell2]
    simp only [List.filter_append, List.filter_cons, hfiltA1, hfiltA2, hvq1, hvq2,
      if_true, List.nil_append, List.append_nil]
  -- the blank scan is unchanged
  have hbeqf : ∀ x : Nat, x ≠ 0 → (x == 0) = false := by
    intro x hx
    cases x with
    | zero => exact absurd rfl hx
    | succ k => rfl
  have hfind : find_blank_position n gm = find_blank_position n g := by
    rw [find_blank_position, find_blank_position]
    congr 1
    apply find?_congr_local
    intro p _
    by_cases h1 : p = q1
    · subst h1
      rw [hcell1, hbeqf _ hv2, hbeqf _ hv1]
    · by_cases h2 : p = q2
      · subst h2
        rw [hcell2, hbeqf _ hv1, hbeqf _ hv2]
      · rw [hcello p h1 h2]
  exact ⟨q1, q2, rest, _, hnb, hmk, hq12, hv1, hv2, hvne, hflat5,
    hmk ▸ hflat6, hmk ▸ hfind, hmk ▸ hgood, hmk ▸ hblankkeep,
    hmk ▸ hcell1, hmk ▸ hcell2, hmk ▸ hcello⟩

/-! ## Inversion parity and the solvability flip -/

/-- Exchanging the first two (distinct) entries of a list changes the
inversion count by exactly one, so the two counts sum to an odd number. -/
theorem inversions_swap_parity (a b : Nat) (h : a ≠ b) (t : List Nat) :
    (inversions (a :: b :: t) + inversions (b :: a :: t)) % 2 = 1 := by
  simp only [inversions, List.countP_cons, decide_eq_true_eq]
  rcases Nat.lt_trichotomy a b with hab | hab | hab
  · rw [if_pos hab, if_neg (Nat.lt_asymm hab)]
    omega
  · exact absurd hab h
  · rw [if_neg (Nat.lt_asymm hab), if_pos hab]
    omega

theorem check_solvability_def (n : Nat) (g : List (List Nat)) :
    check_solvability n g =
      if n % 2 = 1 then
        decide (inversions (g.flatten.filter fun v => decide (v ≠ 0)) % 2 = 0)
      else
        decide ((inversions (g.flatten.filter fun v => decide (v ≠ 0)) +
          (n - (find_blank_position n g).1)) % 2 = 1) := rfl

theorem decide_parity_flip (x y : Nat) (hsum : (x + y) % 2 = 1) :
    (decide (y % 2 = 0) = !decide (x % 2 = 0)) ∧
    ∀ b : Nat, decide ((y + b) % 2 = 1) = !decide ((x + b) % 2 = 1) := by
  constructor
  · by_cases h1 : x % 2 = 0
    · have h2 : ¬ (y % 2 = 0) := by omega
      simp [h1, h2]
    · have h2 : y % 2 = 0 := by omega
      simp [h1, h2]
  · intro b
    by_cases h1 : (x + b) % 2 = 1
    · have h2 : ¬ ((y + b) % 2 = 1) := by omega
      simp [h1, h2]
    · have h2 : (y + b) % 2 = 1 := by omega
      simp [h1, h2]

/-- On a well-formed board the repair step always flips the verdict of the
solvability check. -/
theorem check_make_flip {n : Nat} {g : List (List Nat)} (hg : GoodGrid n g) (hn : 2 ≤ n) :
    check_solvability n (make_solvable n g) = !check_solvability n g := by
  obtain ⟨q1, q2, rest, t, hnb, hmk, hq12, hv1, hv2, hvne, hflat5, hflat6, hfind, hgood,
    hkeep, hc1, hc2, hco⟩ := make_solvable_spec hg hn
  have hsum := inversions_swap_parity (cell g q1.1 q1.2) (cell g q2.1 q2.2) hvne t
  rw [check_solvability_def, check_solvability_def, hfind, hflat5, hflat6]
  have hflip := decide_parity_flip (inversions (cell g q1.1 q1.2 :: cell g q2.1 q2.2 :: t))
    (inversions (cell g q2.1 q2.2 :: cell g q1.1 q1.2 :: t)) hsum
  by_cases hpar : n % 2 = 1
  · rw [if_pos hpar, if_pos hpar]
    exact hflip.1
  · rw [if_neg hpar, if_neg hpar]
    exact hflip.2 _

/-! ## The state invariant and `generate_solvable_puzzle` -/

/-- The §3 state invariant: a well-formed grid together with a cached blank
position that is in bounds and does hold the blank. -/
def WFState (s : GameState) : Prop :=
  GoodGrid s.size s.grid ∧ s.blank_pos.1 < s.size ∧ s.blank_pos.2 < s.size ∧
    cell s.grid s.blank_pos.1 s.blank_pos.2 = 0

theorem generate_spec {n : Nat} (hn : 2 ≤ n) (randPerms : Nat → List (Int × Int)) :
    WFState (generate_solvable_puzzle n randPerms) ∧
    (generate_solvable_puzzle n randPerms).size = n ∧
    (generate_solvable_puzzle n randPerms).moves = 0 ∧
    check_solvability n (generate_solvable_puzzle n randPerms).grid = true := by
  have h1 : 1 ≤ n := by omega
  have hinv : ShufInv n (shuffle_puzzle n randPerms (solvedGrid n) (n - 1) (n - 1)) := by
    apply shufInv_shuffle
    refine ⟨goodGrid_solvedGrid h1, ?_, ?_, ?_⟩
    · show n - 1 < n
      omega
    · show n - 1 < n
      omega
    · show cell (solvedGrid n) (n - 1) (n - 1) = 0
      exact cell_setCell_self (shape_baseGrid n) (by omega) (by omega) 0
  have hgood1 : GoodGrid n (shuffle_puzzle n randPerms (solvedGrid n) (n - 1) (n - 1)).1 :=
    hinv.1
  simp only [generate_solvable_puzzle]
  by_cases hc : check_solvability n
      (shuffle_puzzle n randPerms (solvedGrid n) (n - 1) (n - 1)).1 = true
  · rw [if_pos hc]
    obtain ⟨hb1, hb2, hb0⟩ := find_blank_spec (goodGrid_exists_blank hgood1 h1)
    exact ⟨⟨hgood1, hb1, hb2, hb0⟩, rfl, rfl, hc⟩
  · rw [if_neg hc]
    obtain ⟨q1, q2, rest, t, hnb, hmk, hq12, hv1, hv2, hvne, hflat5, hflat6, hfind, hgood,
      hkeep, hc1, hc2, hco⟩ := make_solvable_spec hgood1 hn
    obtain ⟨hb1, hb2, hb0⟩ := find_blank_spec (goodGrid_exists_blank hgood h1)
    refine ⟨⟨hgood, hb1, hb2, hb0⟩, rfl, rfl, ?_⟩
    rw [check_make_flip hgood1 hn]
    simp only [Bool.not_eq_true] at hc
    simp [hc]

/-! ## Moving tiles -/

theorem can_move_iff (s : GameState) (row col : Int) :
    can_move_tile s row col = true ↔
      (0 ≤ row ∧ row < (s.size : Int) ∧ 0 ≤ col ∧ col < (s.size : Int)) ∧
      cell s.grid row.toNat col.toNat ≠ 0 ∧
      ((row - (s.blank_pos.1 : Int)).natAbs = 1 ∧ (col - (s.blank_pos.2 : Int)).natAbs = 0 ∨
        (row - (s.blank_pos.1 : Int)).natAbs = 0 ∧ (col - (s.blank_pos.2 : Int)).natAbs = 1) := by
  rw [can_move_tile]
  by_cases h1 : 0 ≤ row ∧ row < (s.size : Int) ∧ 0 ≤ col ∧ col < (s.size : Int)
  · rw [if_neg (not_not_intro h1)]
    by_cases h2 : cell s.grid row.toNat col.toNat = 0
    · rw [if_pos h2]
      simp [h1, h2]
    · rw [if_neg h2]
      simp [h1, h2]
  · rw [if_pos h1]
    simp [h1]

theorem move_tile_returns_can_move (s : GameState) (row col : Int) :
    (move_tile s row col).1 = can_move_tile s row col := by
  rw [move_tile]
  by_cases h : can_move_tile s row col = true
  · rw [if_pos h, h]
  · rw [if_neg h, Bool.not_eq_true] at *
    rw [h]

/-- Full postcondition of an accepted move on a well-formed state. -/
theorem move_tile_accept_spec {s : GameState} {row col : Int} (hwf : WFState s)
    (hc : can_move_tile s row col = true) :
    (move_tile s row col).1 = true ∧
    (move_tile s row col).2.size = s.size ∧
    (move_tile s row col).2.moves = s.moves + 1 ∧
    (move_tile s row col).2.blank_pos = (row.toNat, col.toNat) ∧
    cell (move_tile s row col).2.grid row.toNat col.toNat = 0 ∧
    cell (move_tile s row col).2.grid s.blank_pos.1 s.blank_pos.2 =
      cell s.grid row.toNat col.toNat ∧
    (∀ r c, (r, c) ≠ (row.toNat, col.toNat) → (r, c) ≠ s.blank_pos →
      cell (move_tile s row col).2.grid r c = cell s.grid r c) ∧
    WFState (move_tile s row col).2 := by
  obtain ⟨⟨hshape, hperm⟩, hb1, hb2, hb0⟩ := hwf
  obtain ⟨⟨hr0, hrn, hc0, hcn⟩, hv, hdist⟩ := (can_move_iff s row col).mp hc
  have hrt : row.toNat < s.size := by omega
  have hct : col.toNat < s.size := by omega
  have hne_bp : ((row.toNat, col.toNat) : Nat × Nat) ≠ s.blank_pos := by
    intro h
    have e1 : row.toNat = s.blank_pos.1 := congrArg Prod.fst h
    have e2 : col.toNat = s.blank_pos.2 := congrArg Prod.snd h
    omega
  have hne_bp2 : (s.blank_pos.1, s.blank_pos.2) ≠ ((row.toNat, col.toNat) : Nat × Nat) := by
    intro h
    apply hne_bp
    exact h.symm
  rw [move_tile, if_pos hc]
  have hs1 : Shape s.size (setCell s.grid s.blank_pos.1 s.blank_pos.2
      (cell s.grid row.toNat col.toNat)) := shape_setCell hshape _ _ _
  have hs2 : Shape s.size (setCell (setCell s.grid s.blank_pos.1 s.blank_pos.2
      (cell s.grid row.toNat col.toNat)) row.toNat col.toNat 0) := shape_setCell hs1 _ _ _
  refine ⟨rfl, rfl, rfl, rfl, ?_, ?_, ?_, ?_⟩
  · exact cell_setCell_self hs1 hrt hct 0
  · rw [cell_setCell_ne _ _ hne_bp2]
    exact cell_setCell_self hshape hb1 hb2 _
  · intro r c hrc1 hrc2
    have hrc2' : ((r, c) : Nat × Nat) ≠ (s.blank_pos.1, s.blank_pos.2) := by
      intro h
      apply hrc2
      rw [h]
    rw [cell_setCell_ne _ _ hrc1, cell_setCell_ne _ _ hrc2']
  · refine ⟨⟨hs2, ?_⟩, hrt, hct, ?_⟩
    · exact (flatten_swap_perm hshape hb1 hb2 hrt hct hb0).trans hperm
    · exact cell_setCell_self hs1 hrt hct 0

/-- A rejected move is a strict no-op returning `false`. -/
theorem move_tile_reject_spec {s : GameState} {row col : Int}
    (hc : can_move_tile s row col = false) :
    move_tile s row col = (false, s) := by
  rw [move_tile, if_neg (by rw [hc]; exact Bool.false_ne_true)]

theorem wfState_move (s : GameState) (row col : Int) (hwf : WFState s) :
    WFState (move_tile s row col).2 ∧ (move_tile s row col).2.size = s.size := by
  by_cases hc : can_move_tile s row col = true
  · have spec := move_tile_accept_spec hwf hc
    exact ⟨spec.2.2.2.2.2.2.2, spec.2.1⟩
  · rw [Bool.not_eq_true] at hc
    rw [move_tile_reject_spec hc]
    exact ⟨hwf, rfl⟩

/-- An accepted move is undone by moving the tile now sitting where the blank
was: the second move is accepted, the board and blank return to their old
values, and the move counter has increased by exactly two. -/
theorem move_tile_revert {s : GameState} {row col : Int} (hwf : WFState s)
    (h1 : (move_tile s row col).1 = true) :
    (move_tile (move_tile s row col).2 (s.blank_pos.1 : Int) (s.blank_pos.2 : Int)).1 = true ∧
    (move_tile (move_tile s row col).2 (s.blank_pos.1 : Int)
      (s.blank_pos.2 : Int)).2.grid = s.grid ∧
    (move_tile (move_tile s row col).2 (s.blank_pos.1 : Int)
      (s.blank_pos.2 : Int)).2.blank_pos = s.blank_pos ∧
    (move_tile (move_tile s row col).2 (s.blank_pos.1 : Int)
      (s.blank_pos.2 : Int)).2.moves = s.moves + 2 ∧
    (move_tile (move_tile s row col).2 (s.blank_pos.1 : Int)
      (s.blank_pos.2 : Int)).2.size = s.size := by
  have hc : can_move_tile s row col = true := by
    rw [← move_tile_returns_can_move]
    exact h1
  obtain ⟨⟨hr0, hrn, hc0, hcn⟩, hv, hdist⟩ := (can_move_iff s row col).mp hc
  have hwfg := hwf.1
  have hwb1 := hwf.2.1
  have hwb2 := hwf.2.2.1
  have hwb0 := hwf.2.2.2
  obtain ⟨_, hsize1, hmoves1, hblank1, hcellt1, hcellb1, hcello1, hwf1⟩ :=
    move_tile_accept_spec hwf hc
  have htn1 : ((s.blank_pos.1 : Int)).toNat = s.blank_pos.1 := Int.toNat_natCast _
  have htn2 : ((s.blank_pos.2 : Int)).toNat = s.blank_pos.2 := Int.toNat_natCast _
  have hc2 : can_move_tile (move_tile s row col).2 (s.blank_pos.1 : Int)
      (s.blank_pos.2 : Int) = true := by
    rw [can_move_iff]
    rw [htn1, htn2, hsize1, hblank1]
    refine ⟨⟨by omega, by omega, by omega, by omega⟩, ?_, ?_⟩
    · rw [hcellb1]
      exact hv
    · omega
  obtain ⟨hret2, hsize2, hmoves2, hblank2, hcellt2, hcellb2, hcello2, hwf2⟩ :=
    move_tile_accept_spec hwf1 hc2
  have hrt : row.toNat < s.size := by omega
  have hct : col.toNat < s.size := by omega
  refine ⟨hret2, ?_, ?_, ?_, ?_⟩
  · -- the grid is restored
    have hshape2 : Shape s.size (move_tile (move_tile s row col).2 (s.blank_pos.1 : Int)
        (s.blank_pos.2 : Int)).2.grid := by
      have := hwf2.1.1
      rw [hsize2, hsize1] at this
      exact this
    apply grid_ext hshape2 hwfg.1
    intro r c hr hcc
    by_cases hb : ((r, c) : Nat × Nat) = (s.blank_pos.1, s.blank_pos.2)
    · have hbr : r = s.blank_pos.1 := congrArg Prod.fst hb
      have hbc : c = s.blank_pos.2 := congrArg Prod.snd hb
      subst hbr
      subst hbc
      rw [htn1, htn2] at hcellt2
      rw [hcellt2, hwb0]
    · by_cases ht : ((r, c) : Nat × Nat) = (row.toNat, col.toNat)
      · have har : r = row.toNat := congrArg Prod.fst ht
        have hac : c = col.toNat := congrArg Prod.snd ht
        subst har
        subst hac
        rw [hblank1] at hcellb2
        rw [hcellb2, htn1, htn2, hcellb1]
      · have hb' : ((r, c) : Nat × Nat) ≠ s.blank_pos := by
          intro h
          apply hb
          rw [h]
        rw [hcello2 r c (by rw [htn1, htn2]; exact hb) (by rw [hblank1]; exact ht),
          hcello1 r c ht hb']
  · rw [hblank2, htn1, htn2]
  · rw [hmoves2, hmoves1]
  · rw [hsize2, hsize1]

/-! ## The reachability invariant -/

theorem difficulty_value_ge (d : Difficulty) : 2 ≤ d.value := by
  cases d <;> simp [Difficulty.value]

theorem reachable_spec {s : GameState} (h : Reachable s) : WFState s ∧ 2 ≤ s.size := by
  induction h with
  | generate d randPerms =>
    have hd := difficulty_value_ge d
    have spec := generate_spec hd randPerms
    refine ⟨spec.1, ?_⟩
    rw [spec.2.1]
    exact hd
  | move s row col hr ih =>
    have := wfState_move s row col ih.1
    refine ⟨this.1, ?_⟩
    rw [this.2]
    exact ih.2

/-! ## Characterisation of `is_solved` -/

theorem rowScan_notlast {size : Nat} (g : List (List Nat)) {row : Nat}
    (hrow : row ≠ size - 1) :
    ∀ k c e, (rowScan size g row e (List.range' c k) = (none, e + k) ∧
        (∀ j, j < k → cell g row (c + j) = e + j)) ∨
      ((rowScan size g row e (List.range' c k)).1 = some false ∧
        ¬(∀ j, j < k → cell g row (c + j) = e + j)) := by
  intro k
  induction k with
  | zero =>
    intro c e
    left
    exact ⟨rfl, fun j hj => absurd hj (Nat.not_lt_zero j)⟩
  | succ k ih =>
    intro c e
    rw [List.range'_succ, rowScan]
    rw [if_neg (fun h => hrow h.1)]
    by_cases hcell : cell g row c = e
    · rw [if_neg (by simpa using hcell)]
      rcases ih (c + 1) (e + 1) with ⟨hscan, hall⟩ | ⟨hscan, hnall⟩
      · left
        constructor
        · rw [hscan]
          congr 1
          omega
        · intro j hj
          cases j with
          | zero => simpa using hcell
          | succ i =>
            have := hall i (by omega)
            have e1 : c + (i + 1) = c + 1 + i := by omega
            have e2 : e + (i + 1) = e + 1 + i := by omega
            rw [e1, e2]
            exact this
      · right
        refine ⟨hscan, fun hall => hnall fun j hj => ?_⟩
        have := hall (j + 1) (by omega)
        have e1 : c + 1 + j = c + (j + 1) := by omega
        have e2 : e + 1 + j = e + (j + 1) := by omega
        rw [e1, e2]
        exact this
    · rw [if_pos (by simpa using hcell)]
      right
      refine ⟨rfl, fun hall => hcell ?_⟩
      simpa using hall 0 (by omega)

theorem rowScan_last {size : Nat} (g : List (List Nat)) :
    ∀ k c e, c + k = size → 1 ≤ k →
      ∃ b : Bool, (rowScan size g (size - 1) e (List.range' c k)).1 = some b ∧
        (b = true ↔ (∀ j, j < k - 1 → cell g (size - 1) (c + j) = e + j) ∧
          cell g (size - 1) (size - 1) = 0) := by
  intro k
  induction k with
  | zero => intro c e _ h1; omega
  | succ k ih =>
    intro c e hck h1
    rw [List.range'_succ, rowScan]
    by_cases hk : k = 0
    · subst hk
      have hc : c = size - 1 := by omega
      subst hc
      rw [if_pos ⟨rfl, rfl⟩]
      refine ⟨cell g (size - 1) (size - 1) == 0, rfl, ?_⟩
      rw [beq_iff_eq]
      constructor
      · intro h
        exact ⟨fun j hj => by omega, h⟩
      · intro h
        exact h.2
    · have hcne : c ≠ size - 1 := by omega
      rw [if_neg (fun h => hcne h.2)]
      by_cases hcell : cell g (size - 1) c = e
      · rw [if_neg (by simpa using hcell)]
        obtain ⟨b, hscan, hiff⟩ := ih (c + 1) (e + 1) (by omega) (by omega)
        refine ⟨b, hscan, ?_⟩
        rw [hiff]
        constructor
        · rintro ⟨hall, h0⟩
          refine ⟨fun j hj => ?_, h0⟩
          cases j with
          | zero => simpa using hcell
          | succ i =>
            have := hall i (by omega)
            have e1 : c + (i + 1) = c + 1 + i := by omega
            have e2 : e + (i + 1) = e + 1 + i := by omega
            rw [e1, e2]
            exact this
        · rintro ⟨hall, h0⟩
          refine ⟨fun j hj => ?_, h0⟩
          have := hall (j + 1) (by omega)
          have e1 : c + 1 + j = c + (j + 1) := by omega
          have e2 : e + 1 + j = e + (j + 1) := by omega
          rw [e1, e2]
          exact this
      · rw [if_pos (by simpa using hcell)]
        refine ⟨false, rfl, ?_⟩
        simp only [Bool.false_eq_true, false_iff]
        rintro ⟨hall, _⟩
        apply hcell
        simpa using hall 0 (by omega)

theorem gridScan_rows {size : Nat} (g : List (List Nat)) (hsize : 1 ≤ size) :
    ∀ m r e, r + m = size → 1 ≤ m → e = r * size + 1 →
      (gridScan size g e (List.range' r m) = true ↔
        ((∀ rr cc, r ≤ rr → rr < size → cc < size → ¬(rr = size - 1 ∧ cc = size - 1) →
          cell g rr cc = rr * size + cc + 1) ∧ cell g (size - 1) (size - 1) = 0)) := by
  intro m
  induction m with
  | zero => intro r e _ h1; omega
  | succ m ih =>
    intro r e hrm h1 he
    rw [List.range'_succ, gridScan, List.range_eq_range']
    by_cases hm : m = 0
    · subst hm
      have hr : r = size - 1 := by omega
      subst hr
      obtain ⟨b, hscan, hiff⟩ := @rowScan_last size g size 0 e (by omega) hsize
      cases hscanfull : rowScan size g (size - 1) e (List.range' 0 size) with
      | mk fst snd =>
        rw [hscanfull] at hscan
        simp only at hscan
        subst hscan
        simp only
        rw [hiff]
        constructor
        · rintro ⟨hall, h0⟩
          refine ⟨fun rr cc hrr1 hrr2 hcc hne => ?_, h0⟩
          have hrreq : rr = size - 1 := by omega
          subst hrreq
          have hccne : cc ≠ size - 1 := fun h => hne ⟨rfl, h⟩
          have := hall cc (by omega)
          rw [Nat.zero_add] at this
          rw [this, he]
          omega
        · rintro ⟨hall, h0⟩
          refine ⟨fun j hj => ?_, h0⟩
          have := hall (size - 1) j (by omega) (by omega) (by omega)
            (fun h => by omega)
          rw [Nat.zero_add, this, he]
          omega
    · have hrne : r ≠ size - 1 := by omega
      rcases rowScan_notlast g hrne size 0 e with ⟨hscan, hall⟩ | ⟨hscan, hnall⟩
      · rw [hscan]
        simp only
        have hstep : e + size = (r + 1) * size + 1 := by
          rw [Nat.succ_mul]
          omega
        rw [ih (r + 1) (e + size) (by omega) (by omega) hstep]
        constructor
        · rintro ⟨hrest, h0⟩
          refine ⟨fun rr cc hrr1 hrr2 hcc hne => ?_, h0⟩
          by_cases hrr : rr = r
          · subst hrr
            have := hall cc hcc
            rw [Nat.zero_add] at this
            rw [this, he]
            omega
          · exact hrest rr cc (by omega) hrr2 hcc hne
        · rintro ⟨hfull, h0⟩
          exact ⟨fun rr cc hrr1 hrr2 hcc hne => hfull rr cc (by omega) hrr2 hcc hne, h0⟩
      · cases hscanfull : rowScan size g r e (List.range' 0 size) with
        | mk fst snd =>
          rw [hscanfull] at hscan
          simp only at hscan
          subst hscan
          simp only
          constructor
          · intro h
            exact absurd h (by simp)
          · rintro ⟨hfull, h0⟩
            exfalso
            apply hnall
            intro j hj
            have := hfull r j (by omega) (by omega) hj (fun h => absurd h.1 hrne)
            rw [Nat.zero_add, this, he]
            omega

/-- On any board of positive size, `is_solved` holds exactly when every cell
except the bottom-right one carries its one-indexed row-major position and the
bottom-right cell is the blank. -/
theorem is_solved_iff (s : GameState) (h : 1 ≤ s.size) :
    is_solved s = true ↔
      ((∀ r c, r < s.size → c < s.size → ¬(r = s.size - 1 ∧ c = s.size - 1) →
        cell s.grid r c = r * s.size + c + 1) ∧
        cell s.grid (s.size - 1) (s.size - 1) = 0) := by
  rw [is_solved, List.range_eq_range',
    gridScan_rows s.grid h s.size 0 1 (by omega) h (by simp)]
  constructor
  · rintro ⟨hall, h0⟩
    exact ⟨fun r c h1 h2 h3 => hall r c (by omega) h1 h2 h3, h0⟩
  · rintro ⟨hall, h0⟩
    exact ⟨fun r c _ h1 h2 h3 => hall r c h1 h2 h3, h0⟩

/-! ## The pairwise formulation of the inversion count -/

/-- The inversion count exactly as §4 words it: the number of index pairs
`i < j` (over the blank-free row-major flattening) whose values are out of
order.  This is the specification-side definition, to be compared with the
`inversions` loop translated from the code. -/
def inversionPairs (l : List Nat) : Nat :=
  ((List.range l.length).map fun i =>
    ((List.range l.length).filter fun j =>
      decide (i < j) && decide (l.getD j 0 < l.getD i 0)).length).sum

theorem countP_getD_range (p : Nat → Bool) :
    ∀ l : List Nat, l.countP p =
      ((List.range l.length).filter fun i => p (l.getD i 0)).length := by
  intro l
  induction l with
  | nil => rfl
  | cons x xs ih =>
    rw [List.countP_cons, ih, List.length_cons, List.range_succ_eq_map, List.filter_cons,
      List.filter_map]
    simp only [List.getD_cons_zero, List.getD_cons_succ, Function.comp,
      Nat.succ_eq_add_one]
    by_cases hp : p x = true
    all_goals
      simp [hp]
      congr 1
      apply List.filter_congr
      intro i _
      simp [Function.comp, Nat.succ_eq_add_one, List.getElem?_cons_succ]

theorem inversions_eq_inversionPairs : ∀ l : List Nat, inversions l = inversionPairs l := by
  intro l
  induction l with
  | nil => rfl
  | cons x xs ih =>
    show xs.countP (fun y => y < x) + inversions xs = _
    rw [ih, inversionPairs, inversionPairs, List.length_cons, List.range_succ_eq_map,
      List.map_cons, List.sum_cons, List.map_map]
    have hhead : ((List.filter (fun j => decide (0 < j) &&
        decide ((x :: xs).getD j 0 < (x :: xs).getD 0 0))
          (0 :: (List.range xs.length).map Nat.succ)).length) =
        xs.countP (fun y => y < x) := by
      rw [List.filter_cons, if_neg (by simp), List.filter_map, List.length_map]
      rw [countP_getD_range (fun y => decide (y < x)) xs]
      congr 1
      apply List.filter_congr
      intro j _
      simp [Function.comp, Nat.succ_eq_add_one]
    have htail : ((List.range xs.length).map ((fun i =>
        (List.filter (fun j => decide (i < j) &&
          decide ((x :: xs).getD j 0 < (x :: xs).getD i 0))
            (0 :: (List.range xs.length).map Nat.succ)).length) ∘ Nat.succ)) =
        (List.range xs.length).map (fun i =>
          (List.filter (fun j => decide (i < j) && decide (xs.getD j 0 < xs.getD i 0))
            (List.range xs.length)).length) := by
      apply List.map_congr_left
      intro i _
      simp only [Function.comp]
      rw [List.filter_cons, if_neg (by simp), List.filter_map, List.length_map]
      congr 1
      apply List.filter_congr
      intro j _
      simp [Function.comp, Nat.succ_eq_add_one, Nat.succ_lt_succ_iff]
    rw [hhead, htail]

/-! ## Construction with a raw board size -/

/-- The two runtime failures relevant to constructing the game: the
`IndexError` Python raises when `generate_solvable_puzzle` writes
`self.grid[size-1][size-1]` on an empty grid, and the explicit configuration
error the specification asks for (which no code path produces). -/
inductive InitError
  | indexError
  | configurationError
deriving DecidableEq

/-- `SlidingPuzzleGame.__init__` driven with a raw integer board size instead
of a `Difficulty` member (Python performs no validation whatsoever): for
`size ≤ 0` the comprehension builds an empty grid and the write
`self.grid[size-1][size-1] = 0` raises `IndexError`; for positive sizes
initialisation runs `generate_solvable_puzzle` normally.  No code path raises
a configuration error. -/
def initWithSize (size : Int) (randPerms : Nat → List (Int × Int)) :
    Except InitError GameState :=
  if size ≤ 0 then .error .indexError
  else .ok (generate_solvable_puzzle size.toNat randPerms)

/-! ## Concrete boards used by the test oracles -/

/-- The 3×3 board of the `can_move_tile` oracle, blank in the centre. -/
def midState : GameState :=
  { size := 3, grid := [[1,2,3],[4,0,5],[6,7,8]], blank_pos := (1,1), moves := 5 }

/-- The canonical solved 3×3 board. -/
def solvedState : GameState :=
  { size := 3, grid := [[1,2,3],[4,5,6],[7,8,0]], blank_pos := (2,2), moves := 0 }

/-- A 3×3 board one slide away from solved. -/
def nearState : GameState :=
  { size := 3, grid := [[1,2,3],[4,5,6],[7,0,8]], blank_pos := (2,1), moves := 0 }

/-- Exchanging the first two (distinct) entries of a list changes the
inversion count by exactly one, in one direction or the other. -/
theorem inversions_swap_succ (a b : Nat) (h : a ≠ b) (t : List Nat) :
    inversions (b :: a :: t) = inversions (a :: b :: t) + 1 ∨
    inversions (a :: b :: t) = inversions (b :: a :: t) + 1 := by
  simp only [inversions, List.countP_cons, decide_eq_true_eq]
  rcases Nat.lt_trichotomy a b with hab | hab | hab
  · left
    rw [if_pos hab, if_neg (Nat.lt_asymm hab)]
    omega
  · exact absurd hab h
  · right
    rw [if_neg (Nat.lt_asymm hab), if_pos hab]
    omega

instance (n : Nat) (g : List (List Nat)) : Decidable (Shape n g) := by
  unfold Shape
  infer_instance

instance (n : Nat) (g : List (List Nat)) : Decidable (GoodGrid n g) := by
  unfold GoodGrid
  infer_instance

instance (s : GameState) : Decidable (WFState s) := by
  unfold WFState
  infer_instance

/-! ## The claims -/

/-- C1: for every difficulty `N ∈ {3,4,5,6}` and every outcome of the random
shuffle, the board produced by `generate_solvable_puzzle` satisfies
`check_solvability` immediately after generation. -/
theorem claim_C1_generate_always_solvable (d : Difficulty)
    (randPerms : Nat → List (Int × Int)) :
    (d.value = 3 ∨ d.value = 4 ∨ d.value = 5 ∨ d.value = 6) ∧
    check_solvability d.value (generate_solvable_puzzle d.value randPerms).grid = true :=
  ⟨by cases d <;> simp [Difficulty.value],
    (generate_spec (difficulty_value_ge d) randPerms).2.2.2⟩

/-- C2: `check_solvability` implements the inversion-parity rule over the
blank-free row-major flattening — even inversion count for odd `N`, and
`(inversions + (N - blankRow))` odd for even `N` — and reports the two
3×3 parity-oracle boards as solvable and unsolvable respectively. -/
theorem claim_C2_parity_rule (size : Nat) (g : List (List Nat)) :
    (size % 2 = 1 →
      (check_solvability size g = true ↔
        inversionPairs (g.flatten.filter fun v => decide (v ≠ 0)) % 2 = 0)) ∧
    (size % 2 = 0 →
      (check_solvability size g = true ↔
        (inversionPairs (g.flatten.filter fun v => decide (v ≠ 0)) +
          (size - (find_blank_position size g).1)) % 2 = 1)) ∧
    check_solvability 3 [[1,2,3],[4,5,6],[7,8,0]] = true ∧
    check_solvability 3 [[1,2,3],[4,5,6],[8,7,0]] = false := by
  refine ⟨?_, ?_, by decide, by decide⟩
  · intro hodd
    rw [check_solvability_def, if_pos hodd, ← inversions_eq_inversionPairs]
    simp
  · intro heven
    rw [check_solvability_def, if_neg (by omega), ← inversions_eq_inversionPairs]
    simp

theorem claim_C2_witness :
    (3 % 2 = 1) ∧
    (check_solvability 3 [[1,2,3],[4,5,6],[7,8,0]] = true ↔
      inversionPairs (([[1,2,3],[4,5,6],[7,8,0]] :
        List (List Nat)).flatten.filter fun v => decide (v ≠ 0)) % 2 = 0) :=
  ⟨by decide, (claim_C2_parity_rule 3 [[1,2,3],[4,5,6],[7,8,0]]).1 (by decide)⟩

/-- C3: after a fresh generation followed by any sequence of moves, the board
holds each value in `{0, …, N²−1}` exactly once and the cached blank position
points at the blank. -/
theorem claim_C3_state_invariant (s : GameState) (h : Reachable s) :
    (∀ v, v < s.size * s.size → s.grid.flatten.count v = 1) ∧
    s.grid.flatten.length = s.size * s.size ∧
    cell s.grid s.blank_pos.1 s.blank_pos.2 = 0 := by
  obtain ⟨⟨⟨hshape, hperm⟩, hb1, hb2, hb0⟩, hsz⟩ := reachable_spec h
  refine ⟨fun v hv => ?_, ?_, hb0⟩
  · rw [hperm.count_eq]
    exact List.count_eq_one_of_mem (List.nodup_range _) (List.mem_range.mpr hv)
  · rw [hperm.length_eq, List.length_range]

theorem claim_C3_witness :
    (generate_solvable_puzzle Difficulty.easy.value fun _ => []).grid.flatten.count 5 = 1 ∧
    cell (generate_solvable_puzzle Difficulty.easy.value fun _ => []).grid
      (generate_solvable_puzzle Difficulty.easy.value fun _ => []).blank_pos.1
      (generate_solvable_puzzle Difficulty.easy.value fun _ => []).blank_pos.2 = 0 :=
  ⟨(claim_C3_state_invariant _
      (Reachable.generate Difficulty.easy fun _ => [])).1 5 (by decide),
    (claim_C3_state_invariant _
      (Reachable.generate Difficulty.easy fun _ => [])).2.2⟩

/-- C4: on a state satisfying the §3 invariant, an accepted move returns
`true`, slides the addressed tile into the old blank cell, blanks the
addressed cell, repoints the blank position there, and bumps the move counter
by exactly one; no call ever changes the counter by any other amount. -/
theorem claim_C4_accepted_move (s : GameState) (row col : Int) (hwf : WFState s)
    (hc : can_move_tile s row col = true) :
    (move_tile s row col).1 = true ∧
    (move_tile s row col).2.moves = s.moves + 1 ∧
    (move_tile s row col).2.blank_pos = (row.toNat, col.toNat) ∧
    cell (move_tile s row col).2.grid row.toNat col.toNat = 0 ∧
    cell (move_tile s row col).2.grid s.blank_pos.1 s.blank_pos.2 =
      cell s.grid row.toNat col.toNat ∧
    (∀ r c : Int, (move_tile s r c).2.moves = s.moves + 1 ∨
      (move_tile s r c).2.moves = s.moves) := by
  obtain ⟨h1, _, h3, h4, h5, h6, _, _⟩ := move_tile_accept_spec hwf hc
  refine ⟨h1, h3, h4, h5, h6, fun r c => ?_⟩
  by_cases hcan : can_move_tile s r c = true
  · exact Or.inl (move_tile_accept_spec hwf hcan).2.2.1
  · rw [Bool.not_eq_true] at hcan
    rw [move_tile_reject_spec hcan]
    exact Or.inr rfl

theorem claim_C4_witness :
    WFState midState ∧ can_move_tile midState 0 1 = true ∧
    (move_tile midState 0 1).1 = true ∧
    (move_tile midState 0 1).2.moves = midState.moves + 1 :=
  ⟨by decide, by decide,
    (claim_C4_accepted_move midState 0 1 (by decide) (by decide)).1,
    (claim_C4_accepted_move midState 0 1 (by decide) (by decide)).2.1⟩

/-- C5: a rejected move returns `false` and is a strict no-op on the whole
state — board, blank position and move counter included. -/
theorem claim_C5_rejected_move (s : GameState) (row col : Int)
    (hc : can_move_tile s row col = false) :
    move_tile s row col = (false, s) :=
  move_tile_reject_spec hc

theorem claim_C5_witness :
    can_move_tile midState 0 0 = false ∧ move_tile midState 0 0 = (false, midState) :=
  ⟨by decide, claim_C5_rejected_move midState 0 0 (by decide)⟩

/-- C6: `can_move_tile` holds exactly for in-bounds, non-blank cells at
Manhattan distance one from the blank, and decides the seven oracle probes of
the 3×3 board with central blank accordingly. -/
theorem claim_C6_can_move (s : GameState) (row col : Int) :
    (can_move_tile s row col = true ↔
      ((0 ≤ row ∧ row < (s.size : Int) ∧ 0 ≤ col ∧ col < (s.size : Int)) ∧
        cell s.grid row.toNat col.toNat ≠ 0 ∧
        (row - (s.blank_pos.1 : Int)).natAbs + (col - (s.blank_pos.2 : Int)).natAbs = 1)) ∧
    (can_move_tile midState 0 1 = true ∧ can_move_tile midState 1 0 = true ∧
      can_move_tile midState 1 2 = true ∧ can_move_tile midState 2 1 = true ∧
      can_move_tile midState 0 0 = false ∧ can_move_tile midState 2 2 = false ∧
      can_move_tile midState 1 1 = false) := by
  constructor
  · rw [can_move_iff]
    constructor
    · rintro ⟨hb, hv, hd⟩
      exact ⟨hb, hv, by omega⟩
    · rintro ⟨hb, hv, hd⟩
      exact ⟨hb, hv, by omega⟩
  · exact ⟨by decide, by decide, by decide, by decide, by decide, by decide, by decide⟩

/-- C7: `is_solved` holds exactly when every cell but the bottom-right one
carries its one-indexed row-major position `row*N + col + 1` and the
bottom-right cell is blank; the two oracle boards evaluate accordingly. -/
theorem claim_C7_is_solved (s : GameState) (h : 1 ≤ s.size) :
    (is_solved s = true ↔
      ((∀ r c, r < s.size → c < s.size → ¬(r = s.size - 1 ∧ c = s.size - 1) →
        cell s.grid r c = r * s.size + c + 1) ∧
        cell s.grid (s.size - 1) (s.size - 1) = 0)) ∧
    (is_solved solvedState = true ∧ is_solved nearState = false) :=
  ⟨is_solved_iff s h, by decide, by decide⟩

theorem claim_C7_witness :
    (1 ≤ solvedState.size) ∧ is_solved solvedState = true ∧ is_solved nearState = false :=
  ⟨by decide, (claim_C7_is_solved solvedState (by decide)).2⟩

/-- C8: on a §3-invariant board of size at least 2, the repair step swaps
exactly the first two non-blank cells in row-major order, leaves every blank
cell untouched, changes the inversion count by exactly one, and turns a board
failing `check_solvability` into one passing it. -/
theorem claim_C8_repair_step (n : Nat) (g : List (List Nat))
    (hg : GoodGrid n g) (hn : 2 ≤ n) :
    ∃ (q1 q2 : Nat × Nat) (rest : List (Nat × Nat)),
      nonBlankPositions n g = q1 :: q2 :: rest ∧
      make_solvable n g =
        setCell (setCell g q1.1 q1.2 (cell g q2.1 q2.2)) q2.1 q2.2 (cell g q1.1 q1.2) ∧
      (∀ r c, cell g r c = 0 → cell (make_solvable n g) r c = cell g r c) ∧
      (inversions ((make_solvable n g).flatten.filter fun v => decide (v ≠ 0)) =
          inversions (g.flatten.filter fun v => decide (v ≠ 0)) + 1 ∨
        inversions (g.flatten.filter fun v => decide (v ≠ 0)) =
          inversions ((make_solvable n g).flatten.filter fun v => decide (v ≠ 0)) + 1) ∧
      (check_solvability n g = false → check_solvability n (make_solvable n g) = true) := by
  obtain ⟨q1, q2, rest, t, hnb, hmk, hq12, hv1, hv2, hvne, hflat5, hflat6, hfind, hgood,
    hkeep, hc1, hc2, hco⟩ := make_solvable_spec hg hn
  refine ⟨q1, q2, rest, hnb, hmk, hkeep, ?_, ?_⟩
  · rw [hflat5, hflat6]
    exact inversions_swap_succ (cell g q1.1 q1.2) (cell g q2.1 q2.2) hvne t
  · intro hfalse
    rw [check_make_flip hg hn, hfalse]
    rfl

theorem claim_C8_witness :
    GoodGrid 3 [[1,2,3],[4,5,6],[8,7,0]] ∧
    check_solvability 3 [[1,2,3],[4,5,6],[8,7,0]] = false ∧
    check_solvability 3 (make_solvable 3 [[1,2,3],[4,5,6],[8,7,0]]) = true := by
  refine ⟨by decide, by decide, ?_⟩
  obtain ⟨q1, q2, rest, h1, h2, h3, h4, h5⟩ :=
    claim_C8_repair_step 3 [[1,2,3],[4,5,6],[8,7,0]] (by decide) (by decide)
  exact h5 (by decide)

/-- C9 (amended): a zero-or-negative board size is unrepresentable through
the `Difficulty` enum — every difficulty maps to a size of at least 3 — but
the constructor itself performs no explicit validation: forcing a
non-positive raw size makes initialisation die with an `IndexError` while
building the grid, not with a configuration error. -/
theorem claim_C9_amended (z : Int) (hz : z ≤ 0) (randPerms : Nat → List (Int × Int)) :
    (∀ d : Difficulty, 0 < d.value) ∧
    initWithSize z randPerms = Except.error InitError.indexError := by
  refine ⟨fun d => by cases d <;> simp [Difficulty.value], ?_⟩
  rw [initWithSize, if_pos hz]

theorem claim_C9_witness :
    ((-1 : Int) ≤ 0) ∧
    initWithSize (-1) (fun _ => []) = Except.error InitError.indexError :=
  ⟨by decide, (claim_C9_amended (-1) (by decide) (fun _ => [])).2⟩

theorem claim_C9_counterexample :
    initWithSize 0 (fun _ => []) = Except.error InitError.indexError ∧
    initWithSize 0 (fun _ => []) ≠ Except.error InitError.configurationError := by
  refine ⟨rfl, fun h => ?_⟩
  rw [show initWithSize 0 (fun _ => []) = Except.error InitError.indexError from rfl] at h
  exact absurd (Except.error.inj h) (by decide)

/-- C10: every accepted move is reversible — on a §3-invariant state, after
`move_tile` returns `true`, moving the tile at the old blank position is
accepted and restores the board and blank position, with the move counter up
by exactly two. -/
theorem claim_C10_reversible (s : GameState) (row col : Int) (hwf : WFState s)
    (h : (move_tile s row col).1 = true) :
    (move_tile (move_tile s row col).2 (s.blank_pos.1 : Int) (s.blank_pos.2 : Int)).1 = true ∧
    (move_tile (move_tile s row col).2 (s.blank_pos.1 : Int)
      (s.blank_pos.2 : Int)).2.grid = s.grid ∧
    (move_tile (move_tile s row col).2 (s.blank_pos.1 : Int)
      (s.blank_pos.2 : Int)).2.blank_pos = s.blank_pos ∧
    (move_tile (move_tile s row col).2 (s.blank_pos.1 : Int)
      (s.blank_pos.2 : Int)).2.moves = s.moves + 2 :=
  ⟨(move_tile_revert hwf h).1, (move_tile_revert hwf h).2.1,
    (move_tile_revert hwf h).2.2.1, (move_tile_revert hwf h).2.2.2.1⟩

theorem claim_C10_witness :
    WFState midState ∧ (move_tile midState 0 1).1 = true ∧
    (move_tile (move_tile midState 0 1).2 1 1).2.grid = midState.grid ∧
    (move_tile (move_tile midState 0 1).2 1 1).2.moves = midState.moves + 2 :=
  ⟨by decide, by decide,
    (claim_C10_reversible midState 0 1 (by decide) (by decide)).2.1,
    (claim_C10_reversible midState 0 1 (by decide) (by decide)).2.2.2⟩

end SlidingPuzzle
